import Mathlib

/-!
Shallow embedding of the HealthcheckWatch repository (emailcheck.py and
manage.py) and proofs about the claims of its specification.

Strings are modelled as `List Char`; Unix epochs and the columns of the
`monitors` table are modelled as `Int`; timezone conversion is modelled by an
arbitrary offset function `off : Int → Int` giving the local UTC offset in
seconds at a given epoch (Python's `astimezone` / `fromtimestamp` consult the
system zone database; everything proved here holds for every offset function).
-/

namespace HCW

/-- Gregorian civil date to day count since 1970-01-01 (the standard
days-from-civil algorithm); this is the date arithmetic underlying Python's
`datetime` conversions used by `format_time` and `convert_to_local`. -/
def daysFromCivil (y m d : Int) : Int :=
  let y2 := if m ≤ 2 then y - 1 else y
  let era := (if 0 ≤ y2 then y2 else y2 - 399) / 400
  let yoe := y2 - era * 400
  let mp := (m + 9) % 12
  let doy := (153 * mp + 2) / 5 + d - 1
  let doe := yoe * 365 + yoe / 4 - yoe / 100 + doy
  era * 146097 + doe - 719468

/-- Inverse of `daysFromCivil`: day count since 1970-01-01 to (year, month, day). -/
def civilFromDays (z0 : Int) : Int × Int × Int :=
  let z := z0 + 719468
  let era := (if 0 ≤ z then z else z - 146096) / 146097
  let doe := z - era * 146097
  let yoe := (doe - doe / 1460 + doe / 36524 - doe / 146096) / 365
  let y := yoe + era * 400
  let doy := doe - (365 * yoe + yoe / 4 - yoe / 100)
  let mp := (5 * doy + 2) / 153
  let d := doy - (153 * mp + 2) / 5 + 1
  let m := mp + (if mp < 10 then 3 else -9)
  (if m ≤ 2 then y + 1 else y, m, d)

/-- The decimal digit character for `n % 10`. -/
def digitChar (n : Nat) : Char :=
  match n % 10 with
  | 0 => '0' | 1 => '1' | 2 => '2' | 3 => '3' | 4 => '4'
  | 5 => '5' | 6 => '6' | 7 => '7' | 8 => '8' | _ => '9'

/-- Two-digit zero-padded decimal rendering (strftime `%m`, `%d`, `%H`, `%M`, `%S`). -/
def pad2 (n : Nat) : List Char := [digitChar (n / 10), digitChar n]

/-- Four-digit zero-padded decimal rendering (strftime `%Y`). -/
def pad4 (n : Nat) : List Char :=
  [digitChar (n / 1000), digitChar (n / 100), digitChar (n / 10), digitChar n]

/-- strftime with format `%Y-%m-%d %H:%M:%S` applied to a Unix epoch, as an
aware UTC datetime would render it. -/
def fmtDateTime (e : Int) : List Char :=
  let day := e.ediv 86400
  let sod := (e.emod 86400).toNat
  let y := (civilFromDays day).1
  let mo := (civilFromDays day).2.1
  let d := (civilFromDays day).2.2
  pad4 y.toNat ++ ['-'] ++ pad2 mo.toNat ++ ['-'] ++ pad2 d.toNat ++ [' ']
    ++ pad2 (sod / 3600) ++ [':'] ++ pad2 (sod / 60 % 60) ++ [':'] ++ pad2 (sod % 60)

/-- The `timezone` configuration setting of config.ini: `utc` or `local` (default). -/
inductive TzMode
  | utc
  | local
deriving DecidableEq

/-- manage.py `format_time`: a falsy epoch (missing, or 0) renders as `N/A`,
otherwise the epoch is rendered in UTC or shifted to the local zone by the
system offset, per the configured timezone mode. -/
def format_time (off : Int → Int) (mode : TzMode) (epoch : Option Int) : List Char :=
  match epoch with
  | none => ("N/A").data
  | some e =>
    if e = 0 then ("N/A").data
    else
      match mode with
      | .utc => fmtDateTime e
      | .local => fmtDateTime (e + off e)

/-- A row of the remote `monitors` table, as used by `cmd_list` and `cmd_pause`. -/
structure Monitor where
  last_ping : Int
  timeout_hours : Int
deriving DecidableEq

/-- The derived death time of a monitor: `last_ping + timeout_hours * 3600`. -/
def death_time (m : Monitor) : Int := m.last_ping + m.timeout_hours * 3600

/-- manage.py `cmd_pause`: the UPDATE statement sets
`last_ping = strftime now + hours * 3600`, replacing the stored `last_ping`
with a value computed from the current time; `timeout_hours` is not touched. -/
def cmd_pause (now hours : Int) (m : Monitor) : Monitor :=
  { m with last_ping := now + hours * 3600 }

/-- One iteration of the `cmd_list` loop: the (LAST PING, DEATH DATE) pair of
display strings for a row, with the `[DEAD]` indicator appended to the status
when `now > death_time`. -/
def cmd_list_row (off : Int → Int) (mode : TzMode) (now : Int) (m : Monitor) :
    List Char × List Char :=
  let d := m.last_ping + m.timeout_hours * 3600
  let status := format_time off mode (some d)
  (format_time off mode (some m.last_ping),
    if d < now then status ++ (" [DEAD]").data else status)

/-- Python `str.isdigit` restricted to ASCII: nonempty and all digits. -/
def pyIsDigit (l : List Char) : Bool := !l.isEmpty && l.all Char.isDigit

/-- Python `int` on a nonempty digit string. -/
def parseNat (l : List Char) : Nat := l.foldl (fun a c => a * 10 + (c.toNat - 48)) 0

/-- manage.py `get_cron_minutes_until`, applied to the minute field extracted
from the cron expression and the current minute.  A `*/0` field raises
ZeroDivisionError in the source, which the surrounding `except` turns into the
fallback value `60 - current_minute`; that caught-exception path is the
`interval = 0` branch here. -/
def get_cron_minutes_until (minuteField : List Char) (currentMinute : Nat) : Nat :=
  let defaultUntil := 60 - currentMinute
  if pyIsDigit minuteField then
    let target := parseNat minuteField
    if currentMinute < target then target - currentMinute
    else (60 - currentMinute) + target
  else if minuteField.take 2 = ("*/").data ∧ pyIsDigit (minuteField.drop 2) then
    let interval := parseNat (minuteField.drop 2)
    if interval = 0 then defaultUntil
    else ((currentMinute / interval) + 1) * interval - currentMinute
  else if minuteField = ("*").data then 1
  else defaultUntil

/-- An alert fetched from the outbox (`subject`, `body`), together with the
`header_time` field that `main` assigns before archiving. -/
structure Alert where
  subject : List Char
  body : List Char
  header_time : List Char
deriving DecidableEq

/-- Whether a list of character predicates matches the beginning of a string. -/
def matchAt : List (Char → Bool) → List Char → Bool
  | [], _ => true
  | _ :: _, [] => false
  | p :: ps, c :: cs => p c && matchAt ps cs

/-- The shape of the regex `\d{4}-\d{2}-\d{2} \d{2}:\d{2}:\d{2}` used by
`format_alert_times` (ASCII digits), one predicate per character. -/
def tsShape : List (Char → Bool) :=
  [Char.isDigit, Char.isDigit, Char.isDigit, Char.isDigit, fun c => c == '-',
   Char.isDigit, Char.isDigit, fun c => c == '-',
   Char.isDigit, Char.isDigit, fun c => c == ' ',
   Char.isDigit, Char.isDigit, fun c => c == ':',
   Char.isDigit, Char.isDigit, fun c => c == ':',
   Char.isDigit, Char.isDigit]

/-- Generic left-to-right, non-overlapping scan-and-substitute over a string:
wherever `test` fires, the next `k` characters are replaced by `emit` of those
characters and scanning resumes after them; fuel makes the recursion
structural (callers always supply fuel at least the length of the input). -/
def scanSubF (test : List Char → Bool) (k : Nat) (emit : List Char → List Char) :
    Nat → List Char → List Char
  | _, [] => []
  | 0, l => l
  | fuel + 1, c :: cs =>
    if test (c :: cs) then
      emit ((c :: cs).take k) ++ scanSubF test k emit fuel ((c :: cs).drop k)
    else c :: scanSubF test k emit fuel cs

/-- The scan-and-substitute scanner with enough fuel. -/
def scanSub (test : List Char → Bool) (k : Nat) (emit : List Char → List Char)
    (l : List Char) : List Char :=
  scanSubF test k emit l.length l

/-- Fallible variant of the scanner for a replacement function that can raise
(Python: the replacement callback of `re.sub` throwing an exception): the
first failing replacement aborts the whole substitution. -/
def scanSubOptF (test : List Char → Bool) (k : Nat)
    (emit : List Char → Option (List Char)) :
    Nat → List Char → Option (List Char)
  | _, [] => some []
  | 0, l => some l
  | fuel + 1, c :: cs =>
    if test (c :: cs) then
      (emit ((c :: cs).take k)).bind (fun rep =>
        (scanSubOptF test k emit fuel ((c :: cs).drop k)).map
          (fun rest => rep ++ rest))
    else
      (scanSubOptF test k emit fuel cs).map (fun rest => c :: rest)

/-- The fallible scanner with enough fuel. -/
def scanSubOpt (test : List Char → Bool) (k : Nat)
    (emit : List Char → Option (List Char)) (l : List Char) :
    Option (List Char) :=
  scanSubOptF test k emit l.length l

/-- Embedding of `re.sub` of the timestamp regex with replacement function `f`
(leftmost, non-overlapping, each match is 19 characters); `none` models an
exception raised by the replacement propagating out of `re.sub`. -/
def re_sub_timestamps (f : List Char → Option (List Char)) (l : List Char) :
    Option (List Char) :=
  scanSubOpt (fun s => matchAt tsShape s) 19 f l

/-- Whether the string starts with the five characters `(UTC)`. -/
def utcTest (l : List Char) : Bool := decide (l.take 5 = ("(UTC)").data)

/-- Python `str.replace` of every `(UTC)` occurrence by `(LOCAL)`
(left to right, non-overlapping). -/
def replace_utc_label (l : List Char) : List Char :=
  scanSub utcTest 5 (fun _ => ("(LOCAL)").data) l

/-- Gregorian leap-year test (as Python's `calendar`/`datetime` use it). -/
def isLeapYear (y : Nat) : Bool := y % 4 = 0 && (y % 100 ≠ 0 || y % 400 = 0)

/-- Length of a month, with February 29 days in leap years. -/
def daysInMonth (y mo : Nat) : Nat :=
  if mo = 2 then (if isLeapYear y then 29 else 28)
  else if mo = 4 || mo = 6 || mo = 9 || mo = 11 then 30
  else 31

/-- Python `datetime.strptime(ts, '%Y-%m-%d %H:%M:%S')` on a 19-character
shape-matched substring: the field values are range-checked (month 1-12, day
1 to the month's length, hour at most 23, minute and second at most 59, year
at least 1); out-of-range fields raise ValueError, either because the
strptime pattern rejects them or because the datetime constructor does
(e.g. February 31, year 0).  `none` models the raised ValueError. -/
def strptimeTs (ts : List Char) : Option (Nat × Nat × Nat × Nat × Nat × Nat) :=
  let y := parseNat (ts.take 4)
  let mo := parseNat ((ts.drop 5).take 2)
  let d := parseNat ((ts.drop 8).take 2)
  let h := parseNat ((ts.drop 11).take 2)
  let mi := parseNat ((ts.drop 14).take 2)
  let s := parseNat ((ts.drop 17).take 2)
  if 1 ≤ y ∧ 1 ≤ mo ∧ mo ≤ 12 ∧ 1 ≤ d ∧ d ≤ daysInMonth y mo ∧
      h ≤ 23 ∧ mi ≤ 59 ∧ s ≤ 59 then
    some (y, mo, d, h, mi, s)
  else none

/-- emailcheck.py `convert_to_local`: parse a matched 19-character timestamp as
a UTC datetime via strptime (which raises ValueError, modelled `none`, on
shape-matching but invalid timestamps), convert to the local zone (offset
`off` seconds at that instant) and re-render it with the same format. -/
def convert_to_local (off : Int → Int) (ts : List Char) : Option (List Char) :=
  match strptimeTs ts with
  | none => none
  | some (y, mo, d, h, mi, s) =>
    let e := daysFromCivil (y : Int) (mo : Int) (d : Int) * 86400 +
      (h : Int) * 3600 + (mi : Int) * 60 + (s : Int)
    some (fmtDateTime (e + off e))

/-- emailcheck.py `format_alert_times` on an alert body, at local epoch `now`:
returns the `(header_time, final_body)` pair, or `none` when a ValueError
raised inside `convert_to_local` propagates out (aborting the run).  In UTC
mode the body passes through unchanged; in local mode every timestamp-shaped
substring is converted by `convert_to_local` and then every `(UTC)` marker is
replaced by `(LOCAL)`. -/
def format_alert_times (off : Int → Int) (mode : TzMode) (now : Int)
    (body : List Char) : Option (List Char × List Char) :=
  match mode with
  | .utc => some (fmtDateTime now, body)
  | .local =>
    match re_sub_timestamps (convert_to_local off) body with
    | none => none
    | some converted =>
      some (fmtDateTime (now + off now), replace_utc_label converted)

/-- Alternating concatenation `t₁ ++ u₁ ++ t₂ ++ u₂ ++ ⋯ ++ tail` used to state
structured-body facts about the substitution scanners. -/
def joinAlternating (segs : List (List Char × List Char)) (t : List Char) : List Char :=
  segs.foldr (fun p acc => p.1 ++ (p.2 ++ acc)) t

/-- Python whitespace for `str.strip` (space, tab, newline, CR, VT, FF). -/
def isPySpace (c : Char) : Bool :=
  c = ' ' || c = '\t' || c = '\n' || c = '\r' || c = Char.ofNat 11 || c = Char.ofNat 12

/-- Python `str.strip()`. -/
def pyStrip (l : List Char) : List Char :=
  ((l.dropWhile isPySpace).reverse.dropWhile isPySpace).reverse

/-- True when the string is nonempty and does not begin with whitespace. -/
def notSpaceHead (l : List Char) : Bool :=
  match l with
  | [] => false
  | c :: _ => !isPySpace c

/-- True when the string is nonempty and does not end with whitespace. -/
def notSpaceLast (l : List Char) : Bool := notSpaceHead l.reverse

/-- A body that `str.strip` leaves unchanged: nonempty, no leading or trailing
whitespace. -/
def bodyClean (l : List Char) : Bool := notSpaceHead l && notSpaceLast l

/-- The 64-dash divider line written by `archive_locally`. -/
def DELIM : List Char := List.replicate 64 '-'

/-- The separator `cmd_log` splits the archive on: the divider followed by a
blank line — exactly the closing sequence of each archive entry. -/
def LOG_SEP : List Char := DELIM ++ ("\n\n").data

/-- The text of one archive entry up to (excluding) its closing
divider-plus-blank-line: divider, TIME line, DB line, SUBJECT line, MESSAGE
header, stripped body, newline. -/
def archive_frag (db : List Char) (a : Alert) : List Char :=
  DELIM ++ ("\n").data
    ++ ("TIME:    ").data ++ a.header_time ++ ("\n").data
    ++ ("DB:      ").data ++ db ++ ("\n").data
    ++ ("SUBJECT: ").data ++ a.subject ++ ("\n").data
    ++ ("MESSAGE:\n").data
    ++ pyStrip a.body ++ ("\n").data

/-- emailcheck.py `archive_locally`: the full text appended to the log file for
one alert (the writes concatenate; the closing write is divider + blank line). -/
def archive_entry (db : List Char) (a : Alert) : List Char :=
  archive_frag db a ++ LOG_SEP

/-- Archive contents after appending a batch of alerts in order. -/
def archive_contents (db : List Char) (alerts : List Alert) : List Char :=
  alerts.foldr (fun a acc => archive_entry db a ++ acc) []

/-- Python `str.split(sep)` for a nonempty separator (left-to-right,
non-overlapping, empty pieces kept), fuelled to keep recursion structural. -/
def splitSepF (sep : List Char) : Nat → List Char → List (List Char)
  | _, [] => [[]]
  | 0, l => [l]
  | fuel + 1, c :: cs =>
    if (c :: cs).take sep.length = sep then
      [] :: splitSepF sep fuel ((c :: cs).drop sep.length)
    else
      let r := splitSepF sep fuel cs
      (c :: r.headD []) :: r.tail

/-- The splitting scanner with enough fuel. -/
def pySplit (sep l : List Char) : List (List Char) := splitSepF sep l.length l

/-- manage.py `cmd_log`: split the archive on divider-plus-blank-line, strip
each piece, and keep the nonempty ones. -/
def cmd_log_blocks (content : List Char) : List (List Char) :=
  ((pySplit LOG_SEP content).map pyStrip).filter (fun b => !b.isEmpty)

/-- manage.py `cmd_log` tail: the last `n` blocks in original order
(`blocks[-n:]`, called with `n = 10` in the source). -/
def cmd_log_tail (n : Nat) (content : List Char) : List (List Char) :=
  let bs := cmd_log_blocks content
  bs.drop (bs.length - n)

/-- The block a well-behaved archive entry produces in `cmd_log`: the fragment
with its single trailing newline stripped, containing subject and body
verbatim. -/
def clean_block (db : List Char) (a : Alert) : List Char :=
  DELIM ++ ("\n").data
    ++ ("TIME:    ").data ++ a.header_time ++ ("\n").data
    ++ ("DB:      ").data ++ db ++ ("\n").data
    ++ ("SUBJECT: ").data ++ a.subject ++ ("\n").data
    ++ ("MESSAGE:\n").data
    ++ a.body

/-- No occurrence of the log separator starts inside the fragment of this
alert's archive entry (so `cmd_log` splits the entry exactly at its closing
divider-plus-blank-line). -/
def no_early_sep (db : List Char) (a : Alert) : Bool :=
  decide (∀ i, i < (archive_frag db a).length →
    ((archive_entry db a).drop i).take LOG_SEP.length ≠ LOG_SEP)

/-- The characters strftime `%Y-%m-%d %H:%M:%S` output can contain. -/
def goodChar (c : Char) : Bool := c.isDigit || c == '-' || c == ' ' || c == ':'

/-- Why the outbox fetch can fail: network/HTTP error or JSON decode error. -/
inductive FetchError
  | urlError
  | jsonError
deriving DecidableEq

/-- Observable effects of one emailcheck.py run. -/
structure RunTrace where
  exitCode : Nat
  archived : List Alert
  archiveResults : List Bool
  sendAttemptIdx : List Nat
  clearCalls : Nat
deriving DecidableEq

/-- The per-alert loop of emailcheck.py `main`, processing the batch
sequentially from index `i`: each alert is formatted then archived (the
archive result is recorded but ignored by control flow, oracle `archiveOk`);
unless squelched, a delivery attempt is made (oracle `sendOk`) and a failure
permanently clears the batch success flag; there is no early abort. -/
def processAlerts (fmt : Alert → Alert) (squelched : Bool)
    (sendOk archiveOk : Nat → Bool) : List Alert → Nat → RunTrace
  | [], _ => ⟨0, [], [], [], 0⟩
  | a :: rest, i =>
    let r := processAlerts fmt squelched sendOk archiveOk rest (i + 1)
    { exitCode := 0
      archived := fmt a :: r.archived
      archiveResults := archiveOk i :: r.archiveResults
      sendAttemptIdx := (if squelched then [] else [i]) ++ r.sendAttemptIdx
      clearCalls := 0 }

/-- The final batch-wide success flag of the loop: true unless some
non-squelched send attempt failed. -/
def allProcessed (squelched : Bool) (sendOk : Nat → Bool) : List Alert → Nat → Bool
  | [], _ => true
  | _ :: rest, i =>
    (if squelched then true else sendOk i) && allProcessed squelched sendOk rest (i + 1)

/-- emailcheck.py `main` as a trace of observable effects: a failed fetch exits
1 with nothing archived and no clear; an empty batch returns successfully with
no effects; otherwise the batch is processed sequentially and the single
remote delete-all call is issued iff the batch-wide success flag survived. -/
def emailcheck_main (fmt : Alert → Alert) (squelched : Bool)
    (sendOk archiveOk : Nat → Bool) (fetch : Except FetchError (List Alert)) :
    RunTrace :=
  match fetch with
  | .error _ => ⟨1, [], [], [], 0⟩
  | .ok alerts =>
    if alerts.isEmpty then ⟨0, [], [], [], 0⟩
    else
      let r := processAlerts fmt squelched sendOk archiveOk alerts 0
      { exitCode := 0
        archived := r.archived
        archiveResults := r.archiveResults
        sendAttemptIdx := r.sendAttemptIdx
        clearCalls := if allProcessed squelched sendOk alerts 0 then 1 else 0 }

/-! ### Helper lemmas about the timestamp rendering -/

theorem digitChar_isDigit (n : Nat) : (digitChar n).isDigit = true := by
  unfold digitChar
  split <;> decide

theorem goodChar_digitChar (n : Nat) : goodChar (digitChar n) = true := by
  simp [goodChar, digitChar_isDigit]

theorem pad2_all_good (n : Nat) : (pad2 n).all goodChar = true := by
  simp [pad2, goodChar_digitChar]

theorem pad4_all_good (n : Nat) : (pad4 n).all goodChar = true := by
  simp [pad4, goodChar_digitChar]

theorem fmtDateTime_all_good (e : Int) : (fmtDateTime e).all goodChar = true := by
  simp only [fmtDateTime, List.all_append, pad2_all_good, pad4_all_good]
  decide

theorem not_mem_fmtDateTime (c : Char) (hc : goodChar c = false) (e : Int) :
    c ∉ fmtDateTime e := by
  intro hmem
  have h := List.all_eq_true.mp (fmtDateTime_all_good e) c hmem
  rw [hc] at h
  cases h

theorem fmtDateTime_length (e : Int) : (fmtDateTime e).length = 19 := by
  simp [fmtDateTime, pad2, pad4]

theorem rbracket_not_mem_format_time (off : Int → Int) (mode : TzMode)
    (o : Option Int) : (']') ∉ format_time off mode o := by
  rcases o with _ | e
  · simp only [format_time]
    decide
  · by_cases h0 : e = 0
    · simp [format_time, h0]
    · cases mode <;> simp only [format_time, h0, if_false] <;>
        exact not_mem_fmtDateTime _ (by decide) _

theorem format_time_some_ne_na (off : Int → Int) (mode : TzMode) (e : Int)
    (he : e ≠ 0) : format_time off mode (some e) ≠ ("N/A").data := by
  intro h
  have hlen := congrArg List.length h
  cases mode <;>
    simp only [format_time, he, if_false, fmtDateTime_length] at hlen <;>
    simp at hlen

/-! ### C3 — pause -/

/-- Claim C3 counterexample: pausing does not increase `death_time` by exactly
`H*3600` (a monitor with `last_ping = 0`, `timeout_hours = 0` paused 1 hour at
`now = 100` gains 3700 seconds), and pausing can even decrease `death_time`
(a monitor with `last_ping = 7200` in the future, paused 1 hour at `now = 0`). -/
theorem c3_pause_counterexample :
    death_time (cmd_pause 100 1 ⟨0, 0⟩) ≠ death_time ⟨0, 0⟩ + 1 * 3600 ∧
    death_time (cmd_pause 0 1 ⟨7200, 0⟩) < death_time ⟨7200, 0⟩ := by
  constructor <;> decide

/-- Claim C3, amended: `cmd_pause` sets `last_ping` to `now + H*3600`
(discarding the stored `last_ping`) and leaves `timeout_hours` unchanged, so
the new `death_time` is `now + H*3600 + timeout_hours*3600`.  For a monitor
whose `last_ping` is at most `now` (real ping history) and `H ≥ 1`, the pause
strictly increases `death_time`, by at least `H*3600`. -/
theorem c3_pause_amended (m : Monitor) (now H : Int)
    (h1 : m.last_ping ≤ now) (h2 : 1 ≤ H) :
    (cmd_pause now H m).timeout_hours = m.timeout_hours ∧
    death_time (cmd_pause now H m) = now + H * 3600 + m.timeout_hours * 3600 ∧
    death_time m + H * 3600 ≤ death_time (cmd_pause now H m) ∧
    death_time m < death_time (cmd_pause now H m) := by
  refine ⟨rfl, ?_, ?_, ?_⟩
  · simp only [cmd_pause, death_time]
  · simp only [cmd_pause, death_time]
    omega
  · simp only [cmd_pause, death_time]
    omega

/-- Witness for `c3_pause_amended` at a concrete monitor. -/
theorem c3_pause_amended_witness :
    ((⟨50, 2⟩ : Monitor).last_ping ≤ 100 ∧ (1 : Int) ≤ 3) ∧
    ((cmd_pause 100 3 ⟨50, 2⟩).timeout_hours = (⟨50, 2⟩ : Monitor).timeout_hours ∧
      death_time (cmd_pause 100 3 ⟨50, 2⟩) = 100 + 3 * 3600 + 2 * 3600 ∧
      death_time ⟨50, 2⟩ + 3 * 3600 ≤ death_time (cmd_pause 100 3 ⟨50, 2⟩) ∧
      death_time ⟨50, 2⟩ < death_time (cmd_pause 100 3 ⟨50, 2⟩)) :=
  ⟨⟨by decide, by decide⟩, c3_pause_amended ⟨50, 2⟩ 100 3 (by decide) (by decide)⟩

/-! ### C5 — cmd_list death time and [DEAD] marker -/

/-- Claim C5: in the `cmd_list` row display, the death column renders exactly
the epoch `last_ping + timeout_hours*3600` (no rounding), the ` [DEAD]` marker
is present iff `now` is strictly greater than that epoch, so the row is not
marked dead when `now` equals the death time and is marked dead one second
later. -/
theorem c5_list_death_marker (off : Int → Int) (mode : TzMode) (m : Monitor)
    (now : Int) (h : 0 ≤ m.timeout_hours) :
    ((cmd_list_row off mode now m).2 =
        format_time off mode (some (m.last_ping + m.timeout_hours * 3600)) ++
          (if m.last_ping + m.timeout_hours * 3600 < now then (" [DEAD]").data else [])) ∧
    ((∃ rest, (cmd_list_row off mode now m).2 = rest ++ (" [DEAD]").data) ↔
        m.last_ping + m.timeout_hours * 3600 < now) ∧
    (cmd_list_row off mode (m.last_ping + m.timeout_hours * 3600) m).2 =
        format_time off mode (some (m.last_ping + m.timeout_hours * 3600)) ∧
    (cmd_list_row off mode (m.last_ping + m.timeout_hours * 3600 + 1) m).2 =
        format_time off mode (some (m.last_ping + m.timeout_hours * 3600)) ++
          (" [DEAD]").data := by
  refine ⟨?_, ⟨?_, ?_⟩, ?_, ?_⟩
  · simp only [cmd_list_row]
    split <;> simp
  · rintro ⟨rest, hrest⟩
    by_contra hlt
    simp only [cmd_list_row, if_neg hlt] at hrest
    have hmem : (']') ∈ rest ++ (" [DEAD]").data := by
      apply List.mem_append_right
      decide
    rw [← hrest] at hmem
    exact rbracket_not_mem_format_time off mode _ hmem
  · intro hlt
    exact ⟨format_time off mode (some (m.last_ping + m.timeout_hours * 3600)),
      by simp only [cmd_list_row, if_pos hlt]⟩
  · simp only [cmd_list_row, lt_irrefl, if_false, if_neg (lt_irrefl _)]
  · simp only [cmd_list_row, if_pos (by omega : m.last_ping + m.timeout_hours * 3600 <
      m.last_ping + m.timeout_hours * 3600 + 1)]

/-- Witness for `c5_list_death_marker` at a concrete monitor and time. -/
theorem c5_list_death_marker_witness :
    ((0 : Int) ≤ (⟨100, 2⟩ : Monitor).timeout_hours) ∧
    (((cmd_list_row (fun _ => 0) .utc 9000 ⟨100, 2⟩).2 =
        format_time (fun _ => 0) .utc (some ((100 : Int) + 2 * 3600)) ++
          (if (100 : Int) + 2 * 3600 < 9000 then (" [DEAD]").data else [])) ∧
      ((∃ rest, (cmd_list_row (fun _ => 0) .utc 9000 ⟨100, 2⟩).2 =
          rest ++ (" [DEAD]").data) ↔ (100 : Int) + 2 * 3600 < 9000) ∧
      (cmd_list_row (fun _ => 0) .utc ((100 : Int) + 2 * 3600) ⟨100, 2⟩).2 =
          format_time (fun _ => 0) .utc (some ((100 : Int) + 2 * 3600)) ∧
      (cmd_list_row (fun _ => 0) .utc ((100 : Int) + 2 * 3600 + 1) ⟨100, 2⟩).2 =
          format_time (fun _ => 0) .utc (some ((100 : Int) + 2 * 3600)) ++
            (" [DEAD]").data) :=
  ⟨by decide, c5_list_death_marker (fun _ => 0) .utc ⟨100, 2⟩ 9000 (by decide)⟩

/-! ### C8 / C9 — cron ETA -/

/-- Claim C8: the cron-ETA computation gives 5 for fixed field `10` at minute
5, 10 for `*/15` at minute 20, 1 for `*` at any minute, and the fallback
`60 - current_minute` for every malformed or unsupported minute field. -/
theorem c8_cron_eta_cases (field : List Char) (current m2 : Nat)
    (hc : current ≤ 59)
    (hnd : pyIsDigit field = false)
    (hni : ¬(field.take 2 = ("*/").data ∧ pyIsDigit (field.drop 2) = true))
    (hns : field ≠ ("*").data) :
    get_cron_minutes_until (("10").data) 5 = 5 ∧
    get_cron_minutes_until (("*/15").data) 20 = 10 ∧
    get_cron_minutes_until (("*").data) m2 = 1 ∧
    get_cron_minutes_until field current = 60 - current := by
  refine ⟨by decide, by decide, by rfl, ?_⟩
  simp only [get_cron_minutes_until, hnd, Bool.false_eq_true, if_false, if_neg hns]
  rw [if_neg]
  intro hand
  exact hni ⟨hand.1, hand.2⟩

/-- Witness for `c8_cron_eta_cases` with the malformed field `5-10`. -/
theorem c8_cron_eta_cases_witness :
    ((20 : Nat) ≤ 59 ∧ pyIsDigit (("5-10").data) = false ∧
      ¬((("5-10").data).take 2 = ("*/").data ∧
        pyIsDigit ((("5-10").data).drop 2) = true) ∧
      ("5-10").data ≠ ("*").data) ∧
    (get_cron_minutes_until (("10").data) 5 = 5 ∧
      get_cron_minutes_until (("*/15").data) 20 = 10 ∧
      get_cron_minutes_until (("*").data) 7 = 1 ∧
      get_cron_minutes_until (("5-10").data) 20 = 60 - 20) :=
  ⟨⟨by decide, by decide, by decide, by decide⟩,
    c8_cron_eta_cases (("5-10").data) 20 7 (by decide) (by decide) (by decide)
      (by decide)⟩

/-- Claim C9: for every minute field (including `*/0`, whose division by zero
is caught and routed to the fallback) and every current minute in `[0, 59]`,
the cron ETA is at least 1 — never zero or negative — and a fixed minute field
equal to the current minute yields 60 (next hour), not 0. -/
theorem c9_cron_eta_positive (field field2 : List Char) (current current2 : Nat)
    (hc : current ≤ 59) (hc2 : current2 ≤ 59)
    (hd2 : pyIsDigit field2 = true) (he2 : parseNat field2 = current2) :
    1 ≤ get_cron_minutes_until field current ∧
    get_cron_minutes_until field2 current2 = 60 := by
  constructor
  · unfold get_cron_minutes_until
    dsimp only
    split
    · split <;> omega
    · split
      · split
        · omega
        · rename_i hiz
          have hpos : 0 < parseNat (field.drop 2) := Nat.pos_of_ne_zero hiz
          have hdm := Nat.div_add_mod current (parseNat (field.drop 2))
          have hmlt : current % parseNat (field.drop 2) < parseNat (field.drop 2) :=
            Nat.mod_lt _ hpos
          have hexp : (current / parseNat (field.drop 2) + 1) * parseNat (field.drop 2) =
              parseNat (field.drop 2) * (current / parseNat (field.drop 2)) +
                parseNat (field.drop 2) := by ring
          omega
      · split
        · omega
        · omega
  · unfold get_cron_minutes_until
    dsimp only
    rw [if_pos hd2, he2]
    split <;> omega

/-- Witness for `c9_cron_eta_positive` at field `*/0` and fixed field `30`
at minute 30. -/
theorem c9_cron_eta_positive_witness :
    ((20 : Nat) ≤ 59 ∧ (30 : Nat) ≤ 59 ∧ pyIsDigit (("30").data) = true ∧
      parseNat (("30").data) = 30) ∧
    (1 ≤ get_cron_minutes_until (("*/0").data) 20 ∧
      get_cron_minutes_until (("30").data) 30 = 60) :=
  ⟨⟨by decide, by decide, by decide, by decide⟩,
    c9_cron_eta_positive (("*/0").data) (("30").data) 20 30 (by decide) (by decide)
      (by decide) (by decide)⟩

/-! ### C10 — format_time on falsy epochs -/

/-- Claim C10: `format_time` renders every falsy epoch (missing or 0) as
`N/A` rather than a 1970 timestamp, and a nonzero epoch never renders as
`N/A`; consequently a monitor with `last_ping = 0` shows `N/A` in the last-ping
column and a monitor whose computed death time is 0 shows `N/A` in the death
column (with the `[DEAD]` marker appended when `now > 0`). -/
theorem c10_format_time_falsy (off : Int → Int) (mode : TzMode) (e : Int)
    (m : Monitor) (now : Int) (he : e ≠ 0) (hm : m.last_ping = 0)
    (hd : m.last_ping + m.timeout_hours * 3600 = 0) :
    format_time off mode none = ("N/A").data ∧
    format_time off mode (some 0) = ("N/A").data ∧
    format_time off mode (some e) ≠ ("N/A").data ∧
    (cmd_list_row off mode now m).1 = ("N/A").data ∧
    (cmd_list_row off mode now m).2 =
      ("N/A").data ++ (if (0 : Int) < now then (" [DEAD]").data else []) := by
  refine ⟨rfl, by simp [format_time], format_time_some_ne_na off mode e he, ?_, ?_⟩
  · simp [cmd_list_row, hm, format_time]
  · simp only [cmd_list_row, hd]
    split <;> simp [format_time]

/-- Witness for `c10_format_time_falsy` at a concrete all-zero monitor. -/
theorem c10_format_time_falsy_witness :
    ((5 : Int) ≠ 0 ∧ (⟨0, 0⟩ : Monitor).last_ping = 0 ∧
      (⟨0, 0⟩ : Monitor).last_ping + (⟨0, 0⟩ : Monitor).timeout_hours * 3600 = 0) ∧
    (format_time (fun _ => 0) .utc none = ("N/A").data ∧
      format_time (fun _ => 0) .utc (some 0) = ("N/A").data ∧
      format_time (fun _ => 0) .utc (some 5) ≠ ("N/A").data ∧
      (cmd_list_row (fun _ => 0) .utc 1 ⟨0, 0⟩).1 = ("N/A").data ∧
      (cmd_list_row (fun _ => 0) .utc 1 ⟨0, 0⟩).2 =
        ("N/A").data ++ (if (0 : Int) < 1 then (" [DEAD]").data else [])) :=
  ⟨⟨by decide, by decide, by decide⟩,
    c10_format_time_falsy (fun _ => 0) .utc 5 ⟨0, 0⟩ 1 (by decide) (by decide)
      (by decide)⟩

/-! ### Drain pipeline lemmas and C1 / C2 / C4 -/

theorem processAlerts_archived (fmt : Alert → Alert) (squelched : Bool)
    (sendOk archiveOk : Nat → Bool) :
    ∀ (alerts : List Alert) (i : Nat),
      (processAlerts fmt squelched sendOk archiveOk alerts i).archived =
        alerts.map fmt := by
  intro alerts
  induction alerts with
  | nil => intro i; rfl
  | cons a rest ih =>
    intro i
    simp only [processAlerts, List.map_cons, ih]

theorem processAlerts_archiveResults (fmt : Alert → Alert) (squelched : Bool)
    (sendOk archiveOk : Nat → Bool) :
    ∀ (alerts : List Alert) (i : Nat),
      (processAlerts fmt squelched sendOk archiveOk alerts i).archiveResults =
        (List.range alerts.length).map (fun j => archiveOk (i + j)) := by
  intro alerts
  induction alerts with
  | nil => intro i; rfl
  | cons a rest ih =>
    intro i
    simp only [processAlerts, ih, List.length_cons, List.range_succ_eq_map,
      List.map_cons, List.map_map, Nat.add_zero, List.cons.injEq, true_and]
    apply List.map_congr_left
    intro j _
    simp only [Function.comp_apply]
    congr 1
    omega

theorem processAlerts_sendAttemptIdx (fmt : Alert → Alert) (squelched : Bool)
    (sendOk archiveOk : Nat → Bool) :
    ∀ (alerts : List Alert) (i : Nat),
      (processAlerts fmt squelched sendOk archiveOk alerts i).sendAttemptIdx =
        if squelched then []
        else (List.range alerts.length).map (fun j => i + j) := by
  intro alerts
  induction alerts with
  | nil => intro i; cases squelched <;> rfl
  | cons a rest ih =>
    intro i
    cases squelched
    · simp only [processAlerts, ih, if_false, Bool.false_eq_true, List.length_cons,
        List.range_succ_eq_map, List.map_cons, List.map_map, Nat.add_zero,
        List.nil_append, List.cons_append, List.singleton_append, List.cons.injEq,
        true_and]
      apply List.map_congr_left
      intro j _
      simp only [Function.comp_apply]
      omega
    · simp only [processAlerts, ih, if_true]
      rfl

theorem allProcessed_iff (squelched : Bool) (sendOk : Nat → Bool) :
    ∀ (alerts : List Alert) (i : Nat),
      allProcessed squelched sendOk alerts i = true ↔
        (squelched = true ∨ ∀ j, j < alerts.length → sendOk (i + j) = true) := by
  intro alerts
  induction alerts with
  | nil =>
    intro i
    simp only [allProcessed, List.length_nil, true_iff]
    right
    intro j hj
    omega
  | cons a rest ih =>
    intro i
    cases squelched
    · simp only [allProcessed, if_false, Bool.false_eq_true, Bool.and_eq_true, ih,
        false_or, List.length_cons]
      constructor
      · rintro ⟨h0, hrest⟩ j hj
        rcases j with _ | j
        · simpa using h0
        · have hidx : i + (j + 1) = i + 1 + j := by omega
          rw [hidx]
          exact hrest j (by omega)
      · intro h
        refine ⟨by simpa using h 0 (by omega), fun j hj => ?_⟩
        have hidx : i + 1 + j = i + (j + 1) := by omega
        rw [hidx]
        exact h (j + 1) (by omega)
    · simp [allProcessed, ih]

/-- Claim C1: for every non-empty fetched batch, the drain pipeline issues the
remote delete-all call iff the batch-wide success flag is true at the end of
processing — iff delivery was squelched for the run or every per-alert send
attempt succeeded — and every run (whatever the fetch outcome) issues at most
one clear call. -/
theorem c1_clear_iff_success (fmt : Alert → Alert) (squelched : Bool)
    (sendOk archiveOk : Nat → Bool) (alerts : List Alert)
    (fetch : Except FetchError (List Alert)) (h : alerts ≠ []) :
    ((emailcheck_main fmt squelched sendOk archiveOk (.ok alerts)).clearCalls = 1 ↔
      (squelched = true ∨ ∀ j, j < alerts.length → sendOk j = true)) ∧
    (emailcheck_main fmt squelched sendOk archiveOk fetch).clearCalls ≤ 1 := by
  constructor
  · have hne : alerts.isEmpty = false := by
      cases alerts
      · exact absurd rfl h
      · rfl
    simp only [emailcheck_main, hne, Bool.false_eq_true, if_false]
    constructor
    · intro hclear
      by_contra hflag
      rw [if_neg ?_] at hclear
      · cases hclear
      · intro hall
        exact hflag (((allProcessed_iff squelched sendOk alerts 0).mp hall).imp id
          (fun hs j hj => by simpa using hs j hj))
    · intro hflag
      rw [if_pos]
      exact (allProcessed_iff squelched sendOk alerts 0).mpr
        (hflag.imp id (fun hs j hj => by simpa using hs j hj))
  · rcases fetch with e | alerts2
    · exact Nat.zero_le 1
    · simp only [emailcheck_main]
      split
      · exact Nat.zero_le 1
      · dsimp only
        split <;> omega

/-- Witness for `c1_clear_iff_success` on a concrete one-alert batch. -/
theorem c1_clear_iff_success_witness :
    (([(⟨[], [], []⟩ : Alert)] : List Alert) ≠ []) ∧
    (((emailcheck_main id false (fun _ => true) (fun _ => true)
        (.ok [(⟨[], [], []⟩ : Alert)])).clearCalls = 1 ↔
      (false = true ∨ ∀ j, j < ([(⟨[], [], []⟩ : Alert)] : List Alert).length →
        (fun _ => true) j = true)) ∧
    (emailcheck_main id false (fun _ => true) (fun _ => true)
        (.ok [(⟨[], [], []⟩ : Alert)])).clearCalls ≤ 1) :=
  ⟨by decide,
    c1_clear_iff_success id false (fun _ => true) (fun _ => true)
      [(⟨[], [], []⟩ : Alert)] (.ok [(⟨[], [], []⟩ : Alert)]) (by decide)⟩

/-- Claim C2: for every fetched batch, processing is sequential in queue
order: the archive receives exactly one entry per alert, in batch order, each
alert's archive write is attempted regardless of the send and archive oracles,
and a delivery attempt is made for an alert iff squelch mode is off — delivery
failures (the `sendOk` oracle never appears in the archive or attempt lists)
cannot suppress archiving or later delivery attempts. -/
theorem c2_sequential_archive_all (fmt : Alert → Alert) (squelched : Bool)
    (sendOk archiveOk : Nat → Bool) (alerts : List Alert) :
    (emailcheck_main fmt squelched sendOk archiveOk (.ok alerts)).archived =
        alerts.map fmt ∧
    (emailcheck_main fmt squelched sendOk archiveOk (.ok alerts)).archiveResults =
        (List.range alerts.length).map archiveOk ∧
    (emailcheck_main fmt squelched sendOk archiveOk (.ok alerts)).sendAttemptIdx =
        (if squelched then [] else List.range alerts.length) := by
  rcases alerts with _ | ⟨a, rest⟩
  · refine ⟨rfl, rfl, ?_⟩
    cases squelched <;> rfl
  · simp only [emailcheck_main, List.isEmpty_cons, Bool.false_eq_true, if_false]
    refine ⟨?_, ?_, ?_⟩
    · exact processAlerts_archived fmt squelched sendOk archiveOk (a :: rest) 0
    · rw [processAlerts_archiveResults fmt squelched sendOk archiveOk (a :: rest) 0]
      apply List.map_congr_left
      intro j _
      simp
    · rw [processAlerts_sendAttemptIdx fmt squelched sendOk archiveOk (a :: rest) 0]
      cases squelched
      · simp
      · simp

/-- Claim C4: a failed outbox fetch (network, HTTP, or JSON decode error)
exits with code 1 and no side effects — nothing archived, no send attempts,
no clear call — and a successful fetch of zero alerts ends the run with exit
code 0 and the same absence of effects. -/
theorem c4_fetch_failure_and_empty (fmt : Alert → Alert) (squelched : Bool)
    (sendOk archiveOk : Nat → Bool) (e : FetchError) :
    emailcheck_main fmt squelched sendOk archiveOk (.error e) =
      ⟨1, [], [], [], 0⟩ ∧
    emailcheck_main fmt squelched sendOk archiveOk (.ok []) =
      ⟨0, [], [], [], 0⟩ := by
  exact ⟨rfl, rfl⟩

/-! ### Generic facts about the scan-and-substitute scanner -/

theorem takeAppendOfLe {α : Type} : ∀ (n : Nat) (x y : List α), n ≤ x.length →
    (x ++ y).take n = x.take n := by
  intro n x
  induction x generalizing n with
  | nil =>
    intro y h
    have : n = 0 := by simpa using h
    simp [this]
  | cons a x0 ih =>
    intro y h
    rcases n with _ | n
    · simp
    · simp only [List.cons_append, List.take_succ_cons, List.cons.injEq, true_and]
      exact ih n y (by simpa using h)

theorem dropAppendOfLe {α : Type} : ∀ (n : Nat) (x y : List α), n ≤ x.length →
    (x ++ y).drop n = x.drop n ++ y := by
  intro n x
  induction x generalizing n with
  | nil =>
    intro y h
    have : n = 0 := by simpa using h
    simp [this]
  | cons a x0 ih =>
    intro y h
    rcases n with _ | n
    · simp
    · simp only [List.cons_append, List.drop_succ_cons]
      exact ih n y (by simpa using h)

theorem dropNonempty {α : Type} : ∀ (l : List α) (i : Nat), i < l.length →
    ∃ c rest, l.drop i = c :: rest ∧ c ∈ l := by
  intro l
  induction l with
  | nil => intro i h; simp at h
  | cons a l0 ih =>
    intro i h
    rcases i with _ | i
    · exact ⟨a, l0, rfl, List.mem_cons_self a l0⟩
    · obtain ⟨c, rest, hdrop, hmem⟩ := ih i (by simpa using h)
      exact ⟨c, rest, hdrop, List.mem_cons_of_mem a hmem⟩

theorem scanSubF_congr (test : List Char → Bool) (k : Nat)
    (emit : List Char → List Char) (hk : 1 ≤ k) :
    ∀ (bound : Nat) (l : List Char) (n m : Nat), l.length ≤ bound →
      l.length ≤ n → l.length ≤ m →
      scanSubF test k emit n l = scanSubF test k emit m l := by
  intro bound
  induction bound with
  | zero =>
    intro l n m h1 _ _
    have : l = [] := List.eq_nil_of_length_eq_zero (by omega)
    subst this
    cases n <;> cases m <;> rfl
  | succ b ih =>
    intro l n m h1 h2 h3
    rcases l with _ | ⟨c, cs⟩
    · cases n <;> cases m <;> rfl
    · have hlen : cs.length + 1 ≤ b + 1 := by simpa using h1
      obtain ⟨n0, rfl⟩ : ∃ n0, n = n0 + 1 :=
        ⟨n - 1, by simp at h2; omega⟩
      obtain ⟨m0, rfl⟩ : ∃ m0, m = m0 + 1 :=
        ⟨m - 1, by simp at h3; omega⟩
      simp only [scanSubF]
      split
      · have hdl : ((c :: cs).drop k).length = cs.length + 1 - k := by
          simp
        congr 1
        apply ih
        · rw [hdl]; omega
        · rw [hdl]; simp at h2; omega
        · rw [hdl]; simp at h3; omega
      · congr 1
        apply ih
        · omega
        · simp at h2; omega
        · simp at h3; omega

theorem scanSub_nil (test : List Char → Bool) (k : Nat)
    (emit : List Char → List Char) : scanSub test k emit [] = [] := rfl

theorem scanSub_cons (test : List Char → Bool) (k : Nat)
    (emit : List Char → List Char) (hk : 1 ≤ k) (c : Char) (cs : List Char) :
    scanSub test k emit (c :: cs) =
      if test (c :: cs) then
        emit ((c :: cs).take k) ++ scanSub test k emit ((c :: cs).drop k)
      else c :: scanSub test k emit cs := by
  unfold scanSub
  simp only [List.length_cons, scanSubF]
  split
  · congr 1
    apply scanSubF_congr test k emit hk (cs.length + 1) <;>
      (simp only [List.length_drop, List.length_cons]; omega)
  · rfl

theorem scanSub_skip (test : List Char → Bool) (k : Nat)
    (emit : List Char → List Char) (hk : 1 ≤ k) :
    ∀ (t r : List Char),
      (∀ i, i < t.length → test (t.drop i ++ r) = false) →
      scanSub test k emit (t ++ r) = t ++ scanSub test k emit r := by
  intro t
  induction t with
  | nil => intro r _; simp
  | cons c t0 ih =>
    intro r h
    have h0 : test (c :: (t0 ++ r)) = false := by
      have := h 0 (by simp)
      simpa using this
    rw [List.cons_append, scanSub_cons test k emit hk, if_neg (by simp [h0])]
    rw [ih r (fun i hi => by simpa using h (i + 1) (by simpa using hi))]
    rfl

theorem scanSub_consume (test : List Char → Bool) (k : Nat)
    (emit : List Char → List Char) (hk : 1 ≤ k) (ts r : List Char)
    (hlen : ts.length = k) (ht : test (ts ++ r) = true) :
    scanSub test k emit (ts ++ r) = emit ts ++ scanSub test k emit r := by
  rcases ts with _ | ⟨c, ts0⟩
  · simp at hlen; omega
  · rw [List.cons_append, scanSub_cons test k emit hk,
      if_pos (by rw [← List.cons_append]; exact ht)]
    rw [← List.cons_append, ← hlen, List.take_left, List.drop_left]

theorem scanSub_append (test : List Char → Bool) (k : Nat)
    (emit : List Char → List Char) (hk : 1 ≤ k) :
    ∀ (bound : Nat) (a b : List Char), a.length ≤ bound →
      (∀ i, i < a.length → test (a.drop i ++ b) = test (a.drop i)) →
      (∀ i, i < a.length → test (a.drop i) = true → k ≤ a.length - i) →
      scanSub test k emit (a ++ b) =
        scanSub test k emit a ++ scanSub test k emit b := by
  intro bound
  induction bound with
  | zero =>
    intro a b h1 _ _
    have : a = [] := List.eq_nil_of_length_eq_zero (by omega)
    subst this
    simp [scanSub_nil]
  | succ bnd ih =>
    intro a b h1 hsame hwin
    rcases a with _ | ⟨c, a0⟩
    · simp [scanSub_nil]
    · have h0 : test ((c :: a0) ++ b) = test (c :: a0) := by
        simpa using hsame 0 (by simp)
      by_cases hf : test (c :: a0) = true
      · have hk0 : k ≤ (c :: a0).length := by
          have := hwin 0 (by simp) (by simpa using hf)
          simpa using this
        rw [List.cons_append, scanSub_cons test k emit hk,
          if_pos (by rw [← List.cons_append, h0]; exact hf)]
        rw [scanSub_cons test k emit hk, if_pos hf]
        rw [← List.cons_append, takeAppendOfLe k (c :: a0) b hk0,
          dropAppendOfLe k (c :: a0) b hk0, List.append_assoc]
        congr 1
        apply ih ((c :: a0).drop k) b
        · simp at h1 ⊢; omega
        · intro i hi
          rw [List.drop_drop]
          have hkb : k + i < (c :: a0).length := by
            simp at hi ⊢; omega
          exact hsame (k + i) hkb
        · intro i hi hfi
          rw [List.drop_drop] at hfi
          have hkb : k + i < (c :: a0).length := by
            simp at hi ⊢; omega
          have := hwin (k + i) hkb hfi
          simp only [List.length_drop] at hi ⊢
          simp only [List.length_cons] at this hi ⊢
          omega
      · have hf0 : test (c :: a0) = false := by
          cases hcs : test (c :: a0)
          · rfl
          · exact absurd hcs hf
        rw [List.cons_append, scanSub_cons test k emit hk,
          if_neg (by rw [← List.cons_append, h0, hf0]; simp)]
        rw [scanSub_cons test k emit hk, if_neg (by rw [hf0]; simp)]
        rw [List.cons_append]
        congr 1
        apply ih a0 b
        · simp at h1; omega
        · intro i hi
          simpa using hsame (i + 1) (by simpa using hi)
        · intro i hi hfi
          have := hwin (i + 1) (by simpa using hi)
            (by simpa using hfi)
          simp at this ⊢
          omega

/-! ### C6 — format_alert_times -/

theorem matchAt_append_of_le (ps : List (Char → Bool)) :
    ∀ (xs r : List Char), ps.length ≤ xs.length →
      matchAt ps (xs ++ r) = matchAt ps xs := by
  induction ps with
  | nil => intro xs r _; rfl
  | cons p ps0 ih =>
    intro xs r h
    rcases xs with _ | ⟨c, cs⟩
    · simp at h
    · simp only [List.cons_append, matchAt, List.append_eq]
      rw [ih cs r (by simpa using h)]

theorem matchAt_append_mono (ps : List (Char → Bool)) :
    ∀ (xs r : List Char), matchAt ps xs = true → matchAt ps (xs ++ r) = true := by
  induction ps with
  | nil => intro xs r _; rfl
  | cons p ps0 ih =>
    intro xs r h
    rcases xs with _ | ⟨c, cs⟩
    · simp [matchAt] at h
    · simp only [matchAt, Bool.and_eq_true] at h
      simp only [List.cons_append, matchAt, Bool.and_eq_true]
      exact ⟨h.1, ih cs r h.2⟩

theorem utcTest_head_false (c : Char) (x : List Char) (hc : c ≠ '(') :
    utcTest (c :: x) = false := by
  simp only [utcTest, decide_eq_false_iff_not]
  intro h
  rw [List.take_succ_cons] at h
  exact hc (List.head_eq_of_cons_eq h)

theorem utcTest_true_length (x : List Char) (h : utcTest x = true) :
    5 ≤ x.length := by
  simp only [utcTest, decide_eq_true_eq] at h
  have := congrArg List.length h
  simp only [List.length_take] at this
  have hd : (("(UTC)").data).length = 5 := by decide
  rw [hd] at this
  omega

theorem utcTest_append (x bt : List Char) (d : Char) (hdig : d.isDigit = true) :
    utcTest (x ++ d :: bt) = utcTest x := by
  by_cases h5 : 5 ≤ x.length
  · simp only [utcTest]
    rw [takeAppendOfLe 5 x (d :: bt) h5]
  · have hx5 : x.length ≤ 4 := by omega
    have hrhs : utcTest x = false := by
      simp only [utcTest, decide_eq_false_iff_not]
      intro hEq
      have := congrArg List.length hEq
      simp only [List.length_take] at this
      have hd5 : (("(UTC)").data).length = 5 := by decide
      rw [hd5] at this
      omega
    rw [hrhs]
    simp only [utcTest, decide_eq_false_iff_not]
    intro hEq
    have hidx : ((x ++ d :: bt).take 5)[x.length]? =
        (("(UTC)").data)[x.length]? := by
      rw [hEq]
    rw [List.getElem?_take, if_pos (by omega),
      List.getElem?_append_right (le_refl _), Nat.sub_self,
      List.getElem?_cons_zero] at hidx
    have hx : x.length = 0 ∨ x.length = 1 ∨ x.length = 2 ∨ x.length = 3 ∨
        x.length = 4 := by omega
    rcases hx with hx | hx | hx | hx | hx <;> rw [hx] at hidx <;>
      simp only [List.getElem?_cons_zero, List.getElem?_cons_succ,
        Option.some.injEq] at hidx <;> rw [hidx] at hdig <;> cases hdig

theorem fmtDateTime_cons (e : Int) :
    ∃ k tl, fmtDateTime e = digitChar k :: tl :=
  ⟨(civilFromDays (e.ediv 86400)).1.toNat / 1000, _, rfl⟩

theorem paren_not_mem_fmtDateTime (e : Int) : ('(') ∉ fmtDateTime e :=
  not_mem_fmtDateTime '(' (by decide) e

theorem convert_to_local_some (off : Int → Int) (ts : List Char)
    (h : (strptimeTs ts).isSome = true) :
    ∃ e, convert_to_local off ts = some (fmtDateTime e) := by
  obtain ⟨⟨y, mo, d, hh, mi, s⟩, heq⟩ := Option.isSome_iff_exists.mp h
  refine ⟨daysFromCivil (y : Int) (mo : Int) (d : Int) * 86400 +
    (hh : Int) * 3600 + (mi : Int) * 60 + (s : Int) +
    off (daysFromCivil (y : Int) (mo : Int) (d : Int) * 86400 +
      (hh : Int) * 3600 + (mi : Int) * 60 + (s : Int)), ?_⟩
  simp only [convert_to_local, heq]

theorem scanSubOptF_congr (test : List Char → Bool) (k : Nat)
    (emit : List Char → Option (List Char)) (hk : 1 ≤ k) :
    ∀ (bound : Nat) (l : List Char) (n m : Nat), l.length ≤ bound →
      l.length ≤ n → l.length ≤ m →
      scanSubOptF test k emit n l = scanSubOptF test k emit m l := by
  intro bound
  induction bound with
  | zero =>
    intro l n m h1 _ _
    have : l = [] := List.eq_nil_of_length_eq_zero (by omega)
    subst this
    cases n <;> cases m <;> rfl
  | succ b ih =>
    intro l n m h1 h2 h3
    rcases l with _ | ⟨c, cs⟩
    · cases n <;> cases m <;> rfl
    · obtain ⟨n0, rfl⟩ : ∃ n0, n = n0 + 1 := ⟨n - 1, by simp at h2; omega⟩
      obtain ⟨m0, rfl⟩ : ∃ m0, m = m0 + 1 := ⟨m - 1, by simp at h3; omega⟩
      simp only [scanSubOptF]
      have hrec1 : scanSubOptF test k emit n0 ((c :: cs).drop k) =
          scanSubOptF test k emit m0 ((c :: cs).drop k) := by
        apply ih <;> (simp only [List.length_drop, List.length_cons] at h1 h2 h3 ⊢) <;>
          omega
      have hrec2 : scanSubOptF test k emit n0 cs = scanSubOptF test k emit m0 cs := by
        apply ih <;> (simp only [List.length_cons] at h1 h2 h3 ⊢) <;> omega
      rw [hrec1, hrec2]

theorem scanSubOpt_nil (test : List Char → Bool) (k : Nat)
    (emit : List Char → Option (List Char)) : scanSubOpt test k emit [] = some [] :=
  rfl

theorem scanSubOpt_cons (test : List Char → Bool) (k : Nat)
    (emit : List Char → Option (List Char)) (hk : 1 ≤ k) (c : Char)
    (cs : List Char) :
    scanSubOpt test k emit (c :: cs) =
      if test (c :: cs) then
        (emit ((c :: cs).take k)).bind (fun rep =>
          (scanSubOpt test k emit ((c :: cs).drop k)).map (fun rest => rep ++ rest))
      else (scanSubOpt test k emit cs).map (fun rest => c :: rest) := by
  unfold scanSubOpt
  simp only [List.length_cons, scanSubOptF]
  have hrec1 : scanSubOptF test k emit cs.length ((c :: cs).drop k) =
      scanSubOptF test k emit ((c :: cs).drop k).length ((c :: cs).drop k) := by
    apply scanSubOptF_congr test k emit hk (cs.length + 1) <;>
      (simp only [List.length_drop, List.length_cons]; omega)
  rw [hrec1]

theorem scanSubOpt_skip (test : List Char → Bool) (k : Nat)
    (emit : List Char → Option (List Char)) (hk : 1 ≤ k) :
    ∀ (t r : List Char),
      (∀ i, i < t.length → test (t.drop i ++ r) = false) →
      scanSubOpt test k emit (t ++ r) =
        (scanSubOpt test k emit r).map (fun rest => t ++ rest) := by
  intro t
  induction t with
  | nil =>
    intro r _
    simp only [List.nil_append]
    rcases h : scanSubOpt test k emit r with _ | v <;> simp
  | cons c t0 ih =>
    intro r h
    have h0 : test (c :: (t0 ++ r)) = false := by
      have := h 0 (by simp)
      simpa using this
    rw [List.cons_append, scanSubOpt_cons test k emit hk, if_neg (by simp [h0])]
    rw [ih r (fun i hi => by simpa using h (i + 1) (by simpa using hi))]
    rcases scanSubOpt test k emit r with _ | v <;> simp

theorem scanSubOpt_consume (test : List Char → Bool) (k : Nat)
    (emit : List Char → Option (List Char)) (hk : 1 ≤ k) (ts r : List Char)
    (hlen : ts.length = k) (ht : test (ts ++ r) = true) :
    scanSubOpt test k emit (ts ++ r) =
      (emit ts).bind (fun rep =>
        (scanSubOpt test k emit r).map (fun rest => rep ++ rest)) := by
  rcases ts with _ | ⟨c, ts0⟩
  · simp at hlen; omega
  · rw [List.cons_append, scanSubOpt_cons test k emit hk,
      if_pos (by rw [← List.cons_append]; exact ht)]
    rw [← List.cons_append, ← hlen, List.take_left, List.drop_left]

theorem replace_utc_label_skip (t r : List Char) (ht : ('(') ∉ t) :
    replace_utc_label (t ++ r) = t ++ replace_utc_label r := by
  apply scanSub_skip utcTest 5 _ (by omega)
  intro i hi
  obtain ⟨c, rest, hdrop, hmem⟩ := dropNonempty t i hi
  rw [hdrop, List.cons_append]
  exact utcTest_head_false c (rest ++ r) (fun hc => ht (hc ▸ hmem))

theorem replace_utc_label_append (a bt : List Char) (d : Char)
    (hdig : d.isDigit = true) :
    replace_utc_label (a ++ d :: bt) =
      replace_utc_label a ++ replace_utc_label (d :: bt) := by
  apply scanSub_append utcTest 5 _ (by omega) a.length a (d :: bt) (le_refl _)
  · intro i _
    exact utcTest_append (a.drop i) bt d hdig
  · intro i hi hfi
    have := utcTest_true_length (a.drop i) hfi
    simp only [List.length_drop] at this
    omega

theorem replace_utc_label_marker (a b : List Char) (ha : ('(') ∉ a) :
    replace_utc_label (a ++ ("(UTC)").data ++ b) =
      a ++ ("(LOCAL)").data ++ replace_utc_label b := by
  rw [List.append_assoc, replace_utc_label_skip a _ ha]
  have hc : replace_utc_label (("(UTC)").data ++ b) =
      ("(LOCAL)").data ++ replace_utc_label b := by
    apply scanSub_consume utcTest 5 _ (by omega) _ b (by decide)
    simp only [utcTest, decide_eq_true_eq]
    rw [takeAppendOfLe 5 (("(UTC)").data) b (by decide)]
    decide
  rw [hc, List.append_assoc]

theorem re_sub_timestamps_interleave (f : List Char → Option (List Char)) :
    ∀ (segs : List (List Char × List Char)) (t : List Char),
      (∀ p ∈ segs, p.2.length = 19 ∧ matchAt tsShape p.2 = true ∧
        (∃ v, f p.2 = some v) ∧
        (∀ i, i < p.1.length → matchAt tsShape ((p.1 ++ p.2).drop i) = false)) →
      (∀ i, i < t.length → matchAt tsShape (t.drop i) = false) →
      re_sub_timestamps f (joinAlternating segs t) =
        some (joinAlternating (segs.map (fun p => (p.1, (f p.2).getD []))) t) := by
  intro segs
  induction segs with
  | nil =>
    intro t _ ht
    have h := scanSubOpt_skip (fun s => matchAt tsShape s) 19 f (by omega) t []
      (fun i hi => by rw [List.append_nil]; exact ht i hi)
    rw [List.append_nil] at h
    show scanSubOpt (fun s => matchAt tsShape s) 19 f t = some t
    rw [h, scanSubOpt_nil]
    simp
  | cons p segs0 ih =>
    intro t hseg ht
    obtain ⟨hp2len, hp2m, ⟨v, hv⟩, hwin⟩ := hseg p (List.mem_cons_self p segs0)
    rw [show joinAlternating (p :: segs0) t =
        p.1 ++ (p.2 ++ joinAlternating segs0 t) from rfl]
    rw [show joinAlternating
          ((p :: segs0).map (fun q => (q.1, (f q.2).getD []))) t =
        p.1 ++ ((f p.2).getD [] ++
          joinAlternating (segs0.map (fun q => (q.1, (f q.2).getD []))) t)
        from rfl]
    have hskip := scanSubOpt_skip (fun s => matchAt tsShape s) 19 f (by omega)
      p.1 (p.2 ++ joinAlternating segs0 t) ?hsk
    case hsk =>
      intro i hi
      show matchAt tsShape (p.1.drop i ++ (p.2 ++ joinAlternating segs0 t)) = false
      rw [← List.append_assoc]
      have hts : tsShape.length = 19 := rfl
      rw [matchAt_append_of_le tsShape (p.1.drop i ++ p.2)
        (joinAlternating segs0 t)
        (by rw [hts]; simp only [List.length_append, List.length_drop, hp2len]; omega)]
      rw [← dropAppendOfLe i p.1 p.2 (by omega)]
      exact hwin i hi
    have hcons := scanSubOpt_consume (fun s => matchAt tsShape s) 19 f (by omega)
      p.2 (joinAlternating segs0 t) hp2len
      (matchAt_append_mono tsShape p.2 _ hp2m)
    have hih := ih t (fun q hq => hseg q (List.mem_cons_of_mem p hq)) ht
    unfold re_sub_timestamps at hih ⊢
    rw [hskip, hcons, hv, hih]
    simp

theorem replace_utc_label_interleave :
    ∀ (segs : List (List Char × List Char)) (t : List Char),
      (∀ p ∈ segs, (∃ k tl, p.2 = digitChar k :: tl) ∧ ('(') ∉ p.2) →
      replace_utc_label (joinAlternating segs t) =
        joinAlternating (segs.map (fun p => (replace_utc_label p.1, p.2)))
          (replace_utc_label t) := by
  intro segs
  induction segs with
  | nil => intro t _; simp [joinAlternating]
  | cons p segs0 ih =>
    intro t hseg
    obtain ⟨⟨k, tl, hcons⟩, hnp⟩ := hseg p (List.mem_cons_self p segs0)
    rw [show joinAlternating (p :: segs0) t =
        p.1 ++ (p.2 ++ joinAlternating segs0 t) from rfl]
    rw [show joinAlternating
          ((p :: segs0).map (fun q => (replace_utc_label q.1, q.2)))
          (replace_utc_label t) =
        replace_utc_label p.1 ++
          (p.2 ++ joinAlternating (segs0.map (fun q => (replace_utc_label q.1, q.2)))
            (replace_utc_label t)) from rfl]
    rw [hcons, List.cons_append,
      replace_utc_label_append p.1 (tl ++ joinAlternating segs0 t)
        (digitChar k) (digitChar_isDigit k),
      ← List.cons_append,
      replace_utc_label_skip (digitChar k :: tl) _ (hcons ▸ hnp),
      ih t (fun q hq => hseg q (List.mem_cons_of_mem p hq))]

/-- Claim C6 counterexample: a substring matching the timestamp shape need
not be a valid timestamp; `strptime` raises ValueError on `2024-02-31
00:00:00` (day out of range for February), so the code does not replace the
match with a local-zone timestamp — the run aborts with no formatted body at
all. -/
theorem c6_format_alert_times_counterexample :
    matchAt tsShape (("2024-02-31 00:00:00").data) = true ∧
    format_alert_times (fun _ => 3600) .local 0
      (("Ping (UTC) at 2024-02-31 00:00:00").data) = none := by
  constructor
  · decide
  · decide

/-- Claim C6, amended: in local-display mode every timestamp-shaped substring
`YYYY-MM-DD HH:MM:SS` is parsed by strptime, which raises ValueError (the run
aborts, producing no formatted body) when a shape-matching substring is not a
valid calendar timestamp; when every shape-matching substring is valid, each
one is individually reinterpreted as UTC and replaced by the equivalent
local-zone rendering (`convert_to_local`), and every `(UTC)` marker becomes
`(LOCAL)`; in UTC-display mode the body is returned unchanged.  A body is
presented as text segments (which may contain digits, as long as no
timestamp-shape match starts inside them — the exact leftmost-match condition
of `re.sub`) alternating with shape-matched timestamps. -/
theorem c6_format_alert_times_amended (off : Int → Int) (now : Int)
    (body : List Char) (segs : List (List Char × List Char)) (t : List Char)
    (a b : List Char)
    (hseg : ∀ p ∈ segs, p.2.length = 19 ∧ matchAt tsShape p.2 = true ∧
      (strptimeTs p.2).isSome = true ∧
      (∀ i, i < p.1.length → matchAt tsShape ((p.1 ++ p.2).drop i) = false))
    (ht : ∀ i, i < t.length → matchAt tsShape (t.drop i) = false)
    (ha : ('(') ∉ a) :
    format_alert_times off .utc now body = some (fmtDateTime now, body) ∧
    format_alert_times off .local now (joinAlternating segs t) =
      some (fmtDateTime (now + off now),
        joinAlternating
          (segs.map (fun p =>
            (replace_utc_label p.1, (convert_to_local off p.2).getD [])))
          (replace_utc_label t)) ∧
    replace_utc_label (a ++ ("(UTC)").data ++ b) =
      a ++ ("(LOCAL)").data ++ replace_utc_label b := by
  refine ⟨rfl, ?_, replace_utc_label_marker a b ha⟩
  have hre := re_sub_timestamps_interleave (convert_to_local off) segs t
    (fun p hp => by
      obtain ⟨h1, h2, h3, h4⟩ := hseg p hp
      obtain ⟨e, he⟩ := convert_to_local_some off p.2 h3
      exact ⟨h1, h2, ⟨_, he⟩, h4⟩) ht
  have hrep := replace_utc_label_interleave
    (segs.map (fun p => (p.1, (convert_to_local off p.2).getD []))) t ?hc
  case hc =>
    intro q hq
    simp only [List.mem_map] at hq
    obtain ⟨p, hp, rfl⟩ := hq
    obtain ⟨h1, h2, h3, h4⟩ := hseg p hp
    obtain ⟨e, he⟩ := convert_to_local_some off p.2 h3
    constructor
    · obtain ⟨k, tl, hk⟩ := fmtDateTime_cons e
      exact ⟨k, tl, by simp only [he, Option.getD_some, hk]⟩
    · simp only [he, Option.getD_some]
      exact paren_not_mem_fmtDateTime e
  simp only [format_alert_times]
  rw [hre]
  dsimp only
  rw [hrep]
  simp only [List.map_map]
  rfl

/-- Witness for `c6_format_alert_times_amended`: the text segment contains
ordinary digits (`failed 3 times at `), the timestamp is valid, the tail
carries a `(UTC)` marker, at offset +3600 seconds. -/
theorem c6_format_alert_times_amended_witness :
    ((∀ p ∈ [((("failed 3 times at ").data : List Char),
          ("2024-01-01 00:00:00").data)],
        p.2.length = 19 ∧ matchAt tsShape p.2 = true ∧
          (strptimeTs p.2).isSome = true ∧
          (∀ i, i < p.1.length → matchAt tsShape ((p.1 ++ p.2).drop i) = false)) ∧
      (∀ i, i < ((" (UTC) done").data : List Char).length →
        matchAt tsShape (((" (UTC) done").data).drop i) = false) ∧
      ('(') ∉ (("x").data : List Char)) ∧
    (format_alert_times (fun _ => 3600) .utc 0 (("b").data) =
        some (fmtDateTime 0, ("b").data) ∧
      format_alert_times (fun _ => 3600) .local 0
          (joinAlternating
            [((("failed 3 times at ").data : List Char),
              ("2024-01-01 00:00:00").data)]
            ((" (UTC) done").data)) =
        some (fmtDateTime (0 + (fun (_ : Int) => (3600 : Int)) 0),
          joinAlternating
            ([((("failed 3 times at ").data : List Char),
              ("2024-01-01 00:00:00").data)].map
              (fun p => (replace_utc_label p.1,
                (convert_to_local (fun _ => 3600) p.2).getD [])))
            (replace_utc_label ((" (UTC) done").data))) ∧
      replace_utc_label ((("x").data : List Char) ++ ("(UTC)").data ++ ("y").data) =
        (("x").data : List Char) ++ ("(LOCAL)").data ++
          replace_utc_label (("y").data)) :=
  ⟨⟨by decide, by decide, by decide⟩,
    c6_format_alert_times_amended (fun _ => 3600) 0 (("b").data)
      [((("failed 3 times at ").data : List Char), ("2024-01-01 00:00:00").data)]
      ((" (UTC) done").data) (("x").data) (("y").data)
      (by decide) (by decide) (by decide)⟩

/-! ### C7 — archive round-trip through cmd_log -/

theorem splitSepF_congr (sep : List Char) (hL : 1 ≤ sep.length) :
    ∀ (bound : Nat) (l : List Char) (n m : Nat), l.length ≤ bound →
      l.length ≤ n → l.length ≤ m →
      splitSepF sep n l = splitSepF sep m l := by
  intro bound
  induction bound with
  | zero =>
    intro l n m h1 _ _
    have : l = [] := List.eq_nil_of_length_eq_zero (by omega)
    subst this
    cases n <;> cases m <;> rfl
  | succ b ih =>
    intro l n m h1 h2 h3
    rcases l with _ | ⟨c, cs⟩
    · cases n <;> cases m <;> rfl
    · obtain ⟨n0, rfl⟩ : ∃ n0, n = n0 + 1 := ⟨n - 1, by simp at h2; omega⟩
      obtain ⟨m0, rfl⟩ : ∃ m0, m = m0 + 1 := ⟨m - 1, by simp at h3; omega⟩
      simp only [splitSepF]
      split
      · congr 1
        apply ih
        · simp only [List.length_drop, List.length_cons]
          simp only [List.length_cons] at h1
          omega
        · simp only [List.length_drop, List.length_cons]
          simp only [List.length_cons] at h2
          omega
        · simp only [List.length_drop, List.length_cons]
          simp only [List.length_cons] at h3
          omega
      · have hrec : splitSepF sep n0 cs = splitSepF sep m0 cs := by
          apply ih
          · simp only [List.length_cons] at h1; omega
          · simp only [List.length_cons] at h2; omega
          · simp only [List.length_cons] at h3; omega
        rw [hrec]

theorem pySplit_nil (sep : List Char) : pySplit sep [] = [[]] := rfl

theorem pySplit_cons (sep : List Char) (hL : 1 ≤ sep.length) (c : Char)
    (cs : List Char) :
    pySplit sep (c :: cs) =
      if (c :: cs).take sep.length = sep then
        [] :: pySplit sep ((c :: cs).drop sep.length)
      else (c :: (pySplit sep cs).headD []) :: (pySplit sep cs).tail := by
  unfold pySplit
  simp only [List.length_cons, splitSepF]
  split
  · congr 1
    apply splitSepF_congr sep hL (cs.length + 1) <;>
      (simp only [List.length_drop, List.length_cons]; omega)
  · rfl

theorem pySplit_entry (sep : List Char) (hL : 1 ≤ sep.length) :
    ∀ (frag rest : List Char),
      (∀ i, i < frag.length → ((frag ++ sep).drop i).take sep.length ≠ sep) →
      pySplit sep (frag ++ (sep ++ rest)) = frag :: pySplit sep rest := by
  intro frag
  induction frag with
  | nil =>
    intro rest _
    rcases hsep : sep with _ | ⟨s, sep0⟩
    · rw [hsep] at hL; simp at hL
    · rw [← hsep]
      have hne : sep ++ rest = sep.head! :: (sep.tail ++ rest) := by
        rw [hsep]; rfl
      rw [List.nil_append, hne, pySplit_cons sep hL]
      rw [← hne]
      rw [takeAppendOfLe sep.length sep rest (le_refl _), List.take_length,
        if_pos rfl]
      rw [List.drop_left]
  | cons c frag0 ih =>
    intro rest h
    rw [List.cons_append, pySplit_cons sep hL]
    have hcond : (c :: (frag0 ++ (sep ++ rest))).take sep.length ≠ sep := by
      have h0 := h 0 (by simp)
      rw [List.drop_zero] at h0
      have hshape : (c :: (frag0 ++ (sep ++ rest))).take sep.length =
          ((c :: frag0) ++ sep).take sep.length := by
        rw [← List.cons_append, ← List.append_assoc]
        rw [takeAppendOfLe sep.length ((c :: frag0) ++ sep) rest
          (by simp; omega)]
      rw [hshape]
      exact h0
    rw [if_neg hcond]
    rw [ih rest (fun i hi => by
      have := h (i + 1) (by simp only [List.length_cons]; omega)
      simpa using this)]
    rfl

theorem ne_nil_of_notSpaceHead (l : List Char) (h : notSpaceHead l = true) :
    l ≠ [] := by
  intro hnil
  rw [hnil] at h
  cases h

theorem notSpaceHead_append (l z : List Char) (hl : l ≠ []) :
    notSpaceHead (l ++ z) = notSpaceHead l := by
  rcases l with _ | ⟨c, l0⟩
  · exact absurd rfl hl
  · rfl

theorem dropWhile_of_notSpaceHead (l : List Char) (h : notSpaceHead l = true) :
    l.dropWhile isPySpace = l := by
  rcases l with _ | ⟨c, l0⟩
  · rfl
  · have hc : isPySpace c = false := by
      simp only [notSpaceHead, Bool.not_eq_true'] at h
      exact h
    simp [List.dropWhile_cons, hc]

theorem clean_strip (l : List Char) (h : bodyClean l = true) : pyStrip l = l := by
  simp only [bodyClean, Bool.and_eq_true] at h
  obtain ⟨h1, h2⟩ := h
  unfold pyStrip
  rw [dropWhile_of_notSpaceHead l h1, dropWhile_of_notSpaceHead l.reverse h2,
    List.reverse_reverse]

theorem pyStrip_wrap (y : List Char) (h1 : notSpaceHead y = true)
    (h2 : notSpaceLast y = true) : pyStrip (y ++ ("\n").data) = y := by
  unfold pyStrip
  rw [dropWhile_of_notSpaceHead (y ++ ("\n").data)
    (by rw [notSpaceHead_append y _ (ne_nil_of_notSpaceHead y h1)]; exact h1)]
  have hrev : (y ++ ("\n").data).reverse = '\n' :: y.reverse := by
    rw [List.reverse_append]
    rfl
  rw [hrev]
  rw [show List.dropWhile isPySpace ('\n' :: y.reverse) =
      List.dropWhile isPySpace y.reverse from by
    simp [List.dropWhile_cons, isPySpace]]
  rw [dropWhile_of_notSpaceHead y.reverse h2, List.reverse_reverse]

theorem archive_frag_eq_clean (db : List Char) (a : Alert)
    (h : bodyClean a.body = true) :
    archive_frag db a = clean_block db a ++ ("\n").data := by
  unfold archive_frag clean_block
  rw [clean_strip a.body h]

theorem notSpaceHead_clean_block (db : List Char) (a : Alert) :
    notSpaceHead (clean_block db a) = true := rfl

theorem notSpaceLast_clean_block (db : List Char) (a : Alert)
    (h : bodyClean a.body = true) : notSpaceLast (clean_block db a) = true := by
  simp only [bodyClean, Bool.and_eq_true] at h
  obtain ⟨h1, h2⟩ := h
  unfold notSpaceLast
  rw [show clean_block db a =
      (DELIM ++ ("\n").data
        ++ ("TIME:    ").data ++ a.header_time ++ ("\n").data
        ++ ("DB:      ").data ++ db ++ ("\n").data
        ++ ("SUBJECT: ").data ++ a.subject ++ ("\n").data
        ++ ("MESSAGE:\n").data) ++ a.body from rfl]
  rw [List.reverse_append]
  rw [notSpaceHead_append a.body.reverse _ (ne_nil_of_notSpaceHead _ h2)]
  exact h2

theorem pyStrip_archive_frag (db : List Char) (a : Alert)
    (h : bodyClean a.body = true) :
    pyStrip (archive_frag db a) = clean_block db a := by
  rw [archive_frag_eq_clean db a h]
  exact pyStrip_wrap (clean_block db a) (notSpaceHead_clean_block db a)
    (notSpaceLast_clean_block db a h)

theorem clean_block_not_empty (db : List Char) (a : Alert) :
    (clean_block db a).isEmpty = false := rfl

theorem pySplit_archive (db : List Char) (alerts : List Alert)
    (h : ∀ a ∈ alerts, no_early_sep db a = true) :
    pySplit LOG_SEP (archive_contents db alerts) =
      (alerts.map (archive_frag db)) ++ [[]] := by
  induction alerts with
  | nil => rfl
  | cons a rest ih =>
    have hsh : archive_contents db (a :: rest) =
        archive_frag db a ++ (LOG_SEP ++ archive_contents db rest) := by
      rw [show archive_contents db (a :: rest) =
          archive_entry db a ++ archive_contents db rest from rfl]
      rw [show archive_entry db a = archive_frag db a ++ LOG_SEP from rfl]
      rw [List.append_assoc]
    rw [hsh]
    rw [pySplit_entry LOG_SEP (by decide) (archive_frag db a)
      (archive_contents db rest)
      (of_decide_eq_true (h a (List.mem_cons_self a rest)))]
    rw [ih (fun b hb => h b (List.mem_cons_of_mem a hb))]
    rfl

set_option maxRecDepth 8192 in
/-- Claim C7 counterexample: `archive_locally` writes `body.strip()`, so a
body with leading whitespace is not preserved verbatim — archiving the single
alert with body `" x"` and tailing returns one block in which the original
body does not occur as a substring. -/
theorem c7_roundtrip_counterexample :
    (cmd_log_tail 10 (archive_contents (("d").data)
        [⟨("s").data, (" x").data, ("t").data⟩])).length = 1 ∧
    (cmd_log_tail 10 (archive_contents (("d").data)
        [⟨("s").data, (" x").data, ("t").data⟩])).all
      (fun b => !decide ( List.IsInfix ((" x").data) b)) = true := by
  constructor
  · decide
  · decide

/-- Claim C7, amended: archiving N alerts and then tailing with `n ≥ N`
returns exactly those N entries, in original append order, with each entry's
subject and body appearing verbatim in its block — provided each body is
already whitespace-trimmed (`str.strip` leaves it unchanged) and no alert's
fields make the divider-plus-blank-line separator occur early inside its
entry. -/
theorem c7_roundtrip_amended (db : List Char) (alerts : List Alert) (n : Nat)
    (hn : alerts.length ≤ n)
    (hclean : ∀ a ∈ alerts, bodyClean a.body = true ∧ no_early_sep db a = true) :
    cmd_log_tail n (archive_contents db alerts) = alerts.map (clean_block db) := by
  unfold cmd_log_tail cmd_log_blocks
  rw [pySplit_archive db alerts (fun a ha => (hclean a ha).2)]
  rw [List.map_append, List.map_map]
  have hmap : alerts.map (pyStrip ∘ archive_frag db) =
      alerts.map (clean_block db) := by
    apply List.map_congr_left
    intro a ha
    simp only [Function.comp_apply]
    exact pyStrip_archive_frag db a (hclean a ha).1
  rw [hmap]
  rw [show (([[]] : List (List Char)).map pyStrip) = [[]] from rfl]
  rw [List.filter_append]
  rw [show (([[]] : List (List Char)).filter (fun b => !b.isEmpty)) = [] from rfl]
  rw [List.append_nil]
  rw [List.filter_eq_self.mpr (fun b hb => by
    obtain ⟨a, _, rfl⟩ := List.mem_map.mp hb
    rw [clean_block_not_empty]
    rfl)]
  simp only [List.length_map]
  rw [Nat.sub_eq_zero_of_le hn, List.drop_zero]

set_option maxRecDepth 8192 in
/-- Witness for `c7_roundtrip_amended` on one clean alert. -/
theorem c7_roundtrip_amended_witness :
    ((([⟨("s").data, ("ok").data, ("t").data⟩] : List Alert)).length ≤ 3 ∧
      (∀ a ∈ ([⟨("s").data, ("ok").data, ("t").data⟩] : List Alert),
        bodyClean a.body = true ∧ no_early_sep (("d").data) a = true)) ∧
    cmd_log_tail 3 (archive_contents (("d").data)
        [⟨("s").data, ("ok").data, ("t").data⟩]) =
      ([⟨("s").data, ("ok").data, ("t").data⟩] : List Alert).map
        (clean_block (("d").data)) :=
  ⟨⟨by decide, by decide⟩,
    c7_roundtrip_amended (("d").data) [⟨("s").data, ("ok").data, ("t").data⟩] 3
      (by decide) (by decide)⟩

end HCW
